import Mathlib

/-!
Verification of the candidate-generation and scoring core of the
light-upwork-scraper repository.

Shallow embedding of the pure core of the two pipeline variants:
`find_linkedins.py` (primary variant, suffix `Pk`) and
`find_linkedins_cse.py` (alternate variant, suffix `Cse`).

Python strings are modelled as `List Char`; `str.lower` as a
`Char.toLower` map (the sources only rely on ASCII case-folding);
the substring / startswith / endswith tests as `inStr` /
`List.isPrefixOf` / `List.isSuffixOf`.  The external search provider is
modelled as an oracle function from query and attempt number to either
a candidate list or an error message.
-/

abbrev Str := List Char

def s2l (s : String) : Str := s.data

def lowerS (s : Str) : Str := s.map Char.toLower

/-- Python's substring test `needle in hay` (the empty needle is a
substring of everything). -/
def inStr (needle : Str) : Str → Bool
  | [] => needle.isPrefixOf []
  | c :: rest => needle.isPrefixOf (c :: rest) || inStr needle rest

/-- The ASCII fragment of Python's `\s` character class. -/
def isWs (c : Char) : Bool :=
  c = ' ' || c = '\t' || c = '\n' || c = '\r' || c = '\x0b' || c = '\x0c'

/-- Splitter on a separator class, dropping empty pieces; `acc` holds the
current (reversed) piece.  Used for Python's `str.split()` and for
`re.split` wherever the empty pieces are filtered away afterwards. -/
def splitPAux (p : Char → Bool) : Str → Str → List Str
  | [], acc => if acc = [] then [] else [acc.reverse]
  | c :: rest, acc =>
    if p c then
      if acc = [] then splitPAux p rest [] else acc.reverse :: splitPAux p rest []
    else splitPAux p rest (c :: acc)

/-- Python `str.split()` with no argument: split on whitespace runs,
dropping empty pieces. -/
def splitWs (s : Str) : List Str := splitPAux isWs s []

/-- `re.split(r"[\s,]+", loc)` restricted to its nonempty pieces (the
empty boundary pieces are removed by the caller's length filter). -/
def splitWsComma (s : Str) : List Str :=
  splitPAux (fun c => isWs c || c = ',') s []

/-- `normalize_whitespace`: `re.sub(r"\s+", " ", s).strip()`, i.e. the
single-space join of the whitespace-separated tokens. -/
def normalize_whitespace (s : Str) : Str := List.intercalate [' '] (splitWs s)

/-- `first_name_from`: first space-delimited token of the normalized
name, empty for an empty name. -/
def first_name_from (name : Str) : Str :=
  (splitWs (normalize_whitespace name)).headD []

/-- `tokenize_location`: split the normalized location on
whitespace-or-comma runs, keep tokens of length at least 2. -/
def tokenize_location (loc : Str) : List Str :=
  (splitWsComma (normalize_whitespace loc)).filter (fun t => 2 ≤ t.length)

/-- `tokenize_skill`: whitespace tokens of the normalized skill text. -/
def tokenize_skill (s : Str) : List Str := splitWs (normalize_whitespace s)

/-- A whitelisted search-result candidate: `{url, title, snippet}`. -/
structure Candidate where
  url : Str
  title : Str
  snippet : Str
deriving DecidableEq

/-- `combined_text = f"{title} {snippet}"` (over the lowered fields). -/
def combinedText (title snippet : Str) : Str := title ++ ' ' :: snippet

/-- `matching_parts = sum(1 for part in name_parts if len(part) > 1 and
part in combined_text)`. -/
def matchingPartsCount (nameParts : List Str) (combined : Str) : Nat :=
  (nameParts.filter (fun part => 1 < part.length && inStr part combined)).length

/-- Multi-part-name bonus of `pick_candidate` (find_linkedins.py,
lines 227-234): +3 when at least two parts match, +1 when exactly one
matches and the second name part is longer than two characters. -/
def namePartsBonusPk (nameParts : List Str) (combined : Str) : Nat :=
  if 1 < nameParts.length then
    if 2 ≤ matchingPartsCount nameParts combined then 3
    else if matchingPartsCount nameParts combined = 1
            ∧ 2 < ((nameParts.get? 1).getD []).length then 1
    else 0
  else 0

/-- Multi-part-name bonus of `pick_best_linkedin_candidate`
(find_linkedins_cse.py, lines 238-244): same shape, +4 instead of +3. -/
def namePartsBonusCse (nameParts : List Str) (combined : Str) : Nat :=
  if 1 < nameParts.length then
    if 2 ≤ matchingPartsCount nameParts combined then 4
    else if matchingPartsCount nameParts combined = 1
            ∧ 2 < ((nameParts.get? 1).getD []).length then 1
    else 0
  else 0

/-- Location bonus (both variants): `min(location_matches * 2, 4)` when
any location token occurs in the combined text. -/
def locationBonus (locToks : List Str) (combined : Str) : Nat :=
  let m := (locToks.filter (fun t => inStr (lowerS t) combined)).length
  if 0 < m then min (m * 2) 4 else 0

/-- Professional-context keyword list of `pick_candidate`. -/
def ctxKeywordsPk : List Str :=
  [s2l "freelancer", s2l "upwork", s2l "self employed", s2l "self-employed", s2l "consultant"]

/-- Professional-context keyword list of `pick_best_linkedin_candidate`. -/
def ctxKeywordsCse : List Str :=
  [s2l "freelancer", s2l "upwork", s2l "consultant", s2l "self employed"]

/-- +2 when any keyword of the fixed set occurs in the combined text. -/
def contextBonus (keywords : List Str) (combined : Str) : Nat :=
  if keywords.any (fun k => inStr k combined) then 2 else 0

def linkedinWwwIn : Str := s2l "https://www.linkedin.com/in/"
def linkedinBareIn : Str := s2l "https://linkedin.com/in/"

/-- `any(part in url for part in full_name_lower.split() if len(part) > 2)`. -/
def anyLongPartInUrl (fullLower url : Str) : Bool :=
  (splitWs fullLower).any (fun part => 2 < part.length && inStr part url)

/-- URL-pattern bonus of `pick_candidate` (find_linkedins.py, lines
248-252): slug-starts-with-first-name first (+2), any long name part in
the URL second (+1). -/
def urlBonusPk (fullLower fn url : Str) : Nat :=
  if (linkedinWwwIn ++ fn).isPrefixOf url || (linkedinBareIn ++ fn).isPrefixOf url then 2
  else if anyLongPartInUrl fullLower url then 1
  else 0

/-- URL-pattern bonus of `pick_best_linkedin_candidate`
(find_linkedins_cse.py, lines 257-261): any long name part in the URL
first (+2), www-form slug-starts-with-first-name second (+1). -/
def urlBonusCse (fullLower fn url : Str) : Nat :=
  if anyLongPartInUrl fullLower url then 2
  else if (linkedinWwwIn ++ fn).isPrefixOf url then 1
  else 0

/-- Role/skill support bonuses (both variants): +1 each when any role
token resp. skill token occurs in the combined text. -/
def roleSkillBonus (roleToks skillToks : List Str) (combined : Str) : Nat :=
  (if roleToks ≠ [] ∧ roleToks.any (fun t => inStr (lowerS t) combined) then 1 else 0)
  + (if skillToks ≠ [] ∧ skillToks.any (fun t => inStr (lowerS t) combined) then 1 else 0)

/-- Per-candidate score of `pick_candidate` (find_linkedins.py, lines
214-258).  `none` models the `continue` branch taken when the
first-name-in-title gate fails. -/
def scoreOfPk (full_name first_name : Str) (loc_tokens skill_tokens role_tokens : List Str)
    (cand : Candidate) : Option Nat :=
  let fn := lowerS first_name
  let fullL := lowerS full_name
  let title := lowerS cand.title
  let combined := combinedText title (lowerS cand.snippet)
  if inStr fn title then
    some (3 + namePartsBonusPk (splitWs fullL) combined
        + locationBonus loc_tokens combined
        + contextBonus ctxKeywordsPk combined
        + urlBonusPk fullL fn (lowerS cand.url)
        + roleSkillBonus role_tokens skill_tokens combined)
  else
    none

/-- Per-candidate score of `pick_best_linkedin_candidate`
(find_linkedins_cse.py, lines 225-267). -/
def scoreOfCse (full_name first_name : Str) (loc_tokens skill_tokens role_tokens : List Str)
    (cand : Candidate) : Option Nat :=
  let fn := lowerS first_name
  let fullL := lowerS full_name
  let title := lowerS cand.title
  let combined := combinedText title (lowerS cand.snippet)
  if inStr fn title then
    some (3 + namePartsBonusCse (splitWs fullL) combined
        + locationBonus loc_tokens combined
        + contextBonus ctxKeywordsCse combined
        + urlBonusCse fullL fn (lowerS cand.url)
        + roleSkillBonus role_tokens skill_tokens combined)
  else
    none

/-- The best-candidate tracking loop shared verbatim by both selectors:
`if score > best_score: best_score, best_candidate = score, cand`. -/
def pickLoop (score : Candidate → Option Nat) :
    List Candidate → Option Candidate → Nat → Option Candidate × Nat
  | [], best, bestScore => (best, bestScore)
  | c :: rest, best, bestScore =>
    match score c with
    | none => pickLoop score rest best bestScore
    | some s =>
      if bestScore < s then pickLoop score rest (some c) s
      else pickLoop score rest best bestScore

/-- `return best_candidate if best_score >= 5 else None`. -/
def pickBest (score : Candidate → Option Nat) (candidates : List Candidate) :
    Option Candidate :=
  let r := pickLoop score candidates none 0
  if 5 ≤ r.2 then r.1 else none

/-- `pick_candidate` of find_linkedins.py. -/
def pick_candidate (full_name first_name : Str) (loc_tokens skill_tokens : List Str)
    (candidates : List Candidate) (role_tokens : List Str) : Option Candidate :=
  pickBest (scoreOfPk full_name first_name loc_tokens skill_tokens role_tokens) candidates

/-- `pick_best_linkedin_candidate` of find_linkedins_cse.py. -/
def pick_best_linkedin_candidate (full_name first_name : Str)
    (loc_tokens skill_tokens : List Str) (candidates : List Candidate)
    (role_tokens : List Str) : Option Candidate :=
  pickBest (scoreOfCse full_name first_name loc_tokens skill_tokens role_tokens) candidates

/-! ## Query synthesis -/

def siteSuffix : Str := s2l " site:linkedin.com/in"

/-- Wrapping in double quotes: `f'"{s}"'`. -/
def quoteQ (s : Str) : Str := '"' :: (s ++ ['"'])

/-- `is_truncated`: the name has exactly two whitespace-separated parts
and the second is at most 2 characters ending in a period. -/
def is_truncated (name : Str) : Bool :=
  match splitWs name with
  | [_, p2] => p2.length ≤ 2 && ['.'].isSuffixOf p2
  | _ => false

/-- The four truncated-name queries of find_linkedins.py (lines
117-124), in source order. -/
def truncQueriesPk (first_q first_only loc_q top_skill : Str) : List Str :=
  (if loc_q ≠ [] then
     [first_q ++ s2l " freelancer " ++ loc_q ++ siteSuffix,
      first_q ++ ' ' :: (loc_q ++ siteSuffix)]
   else []) ++
  (if top_skill ≠ [] ∧ loc_q ≠ [] then
     [first_q ++ ' ' :: (top_skill ++ ' ' :: (loc_q ++ siteSuffix))]
   else []) ++
  [first_only ++ s2l " freelancer " ++ loc_q ++ siteSuffix]

/-- The truncated-name queries of find_linkedins_cse.py (lines 121-128):
same strings, with the unquoted variant third instead of last. -/
def truncQueriesCse (first_q first_only loc_q top_skill : Str) : List Str :=
  (if loc_q ≠ [] then
     [first_q ++ s2l " freelancer " ++ loc_q ++ siteSuffix,
      first_q ++ ' ' :: (loc_q ++ siteSuffix)]
   else []) ++
  [first_only ++ s2l " freelancer " ++ loc_q ++ siteSuffix] ++
  (if top_skill ≠ [] ∧ loc_q ≠ [] then
     [first_q ++ ' ' :: (top_skill ++ ' ' :: (loc_q ++ siteSuffix))]
   else [])

/-- Priority-1 stage of `build_queries`: only for truncated names. -/
def truncStagePk (name location : Str) (skills : List Str) : List Str :=
  let loc_q := normalize_whitespace location
  let top_skill := normalize_whitespace (skills.headD [])
  let first_only := first_name_from name
  let first_q := if first_only ≠ [] then quoteQ first_only else []
  if is_truncated name ∧ first_q ≠ [] then
    truncQueriesPk first_q first_only loc_q top_skill
  else []

/-- Truncated-name stage of `build_cse_queries`. -/
def truncStageCse (name location : Str) (skills : List Str) : List Str :=
  let loc_q := normalize_whitespace location
  let top_skill := normalize_whitespace (skills.headD [])
  let first_only := first_name_from name
  let first_q := if first_only ≠ [] then quoteQ first_only else []
  if is_truncated name ∧ first_q ≠ [] then
    truncQueriesCse first_q first_only loc_q top_skill
  else []

/-- Priority-2 stage: quoted full name + location queries.  The guard
and the four queries are identical in both source variants. -/
def fullStagePk (name location : Str) (skills : List Str) (role : Str) : List Str :=
  let name_q := if name ≠ [] then quoteQ (normalize_whitespace name) else []
  let loc_q := normalize_whitespace location
  let role_q := normalize_whitespace role
  let top_skill := normalize_whitespace (skills.headD [])
  if name_q ≠ [] ∧ loc_q ≠ [] then
    [name_q ++ s2l " freelancer " ++ loc_q ++ siteSuffix,
     name_q ++ ' ' :: (loc_q ++ siteSuffix)] ++
    (if role_q ≠ [] then [name_q ++ ' ' :: (role_q ++ ' ' :: (loc_q ++ siteSuffix))] else []) ++
    (if top_skill ≠ [] then [name_q ++ ' ' :: (top_skill ++ ' ' :: (loc_q ++ siteSuffix))] else [])
  else []

/-- Priority-3 stage: quoted full name + country fallback (same guard in
both variants). -/
def countryStagePk (name country location : Str) : List Str :=
  let name_q := if name ≠ [] then quoteQ (normalize_whitespace name) else []
  let loc_q := normalize_whitespace location
  let country_q := normalize_whitespace country
  if name_q ≠ [] ∧ country_q ≠ [] ∧ country_q ≠ loc_q then
    [name_q ++ ' ' :: (country_q ++ siteSuffix)]
  else []

/-- Priority-4 stage: quoted full name alone (same in both variants). -/
def nameOnlyStagePk (name : Str) : List Str :=
  let name_q := if name ≠ [] then quoteQ (normalize_whitespace name) else []
  if name_q ≠ [] then [name_q ++ siteSuffix] else []

/-- The order-preserving `seen`-set de-duplication loop shared by both
query builders. -/
def dedupSeen : List Str → List Str → List Str
  | _, [] => []
  | seen, q :: rest =>
    if q ∈ seen then dedupSeen seen rest else q :: dedupSeen (q :: seen) rest

/-- The query list of find_linkedins.py before de-duplication. -/
def assembledPk (name location : Str) (skills : List Str) (role country : Str) : List Str :=
  truncStagePk name location skills ++ fullStagePk name location skills role
    ++ countryStagePk name country location ++ nameOnlyStagePk name

/-- `build_queries` of find_linkedins.py (the unused `primary_category`
parameter of the source is omitted). -/
def build_queries (name location : Str) (skills : List Str) (role country : Str) : List Str :=
  (dedupSeen [] (assembledPk name location skills role country)).take 8

/-- The query list of find_linkedins_cse.py before de-duplication. -/
def assembledCse (name location : Str) (skills : List Str) (role country : Str) : List Str :=
  truncStageCse name location skills ++ fullStagePk name location skills role
    ++ countryStagePk name country location ++ nameOnlyStagePk name

/-- `build_cse_queries` of find_linkedins_cse.py. -/
def build_cse_queries (name location : Str) (skills : List Str) (role country : Str) : List Str :=
  (dedupSeen [] (assembledCse name location skills role country)).take 6

/-! ## Record processing -/

def retryCodes : List Str := [s2l "429", s2l "500", s2l "502", s2l "503", s2l "504"]

/-- `any(code in msg for code in ["429", "500", "502", "503", "504"])`. -/
def isRetryable (msg : Str) : Bool := retryCodes.any (fun c => inStr c msg)

/-- Result of one query's inner retry loop. -/
inductive QueryRes where
  | matched (c : Candidate) (cands : List Candidate)
  | nomatch (cands : List Candidate)
  | failed
deriving DecidableEq

/-- The `while True` retry loop of find_linkedins.py `process_records`
(lines 361-386) for a single query.  `search k` is the outcome of the
(k+1)-st attempt; the function returns the loop result, the number of
search calls made, and the list of backoff sleeps in seconds
(`min(60.0, 5.0 * 2 ** k)`). -/
def runQueryPk (search : Nat → Except Str (List Candidate))
    (pick : List Candidate → Option Candidate) (attempts : Nat) :
    QueryRes × Nat × List Nat :=
  match search attempts with
  | .ok cands =>
    (match pick cands with
     | some c => (.matched c cands, 1, [])
     | none => (.nomatch cands, 1, []))
  | .error msg =>
    if h : isRetryable msg && decide (attempts + 1 < 3) then
      let r := runQueryPk search pick (attempts + 1)
      (r.1, r.2.1 + 1, min 60 (5 * 2 ^ attempts) :: r.2.2)
    else (.failed, 1, [])
termination_by 3 - attempts
decreasing_by
  simp only [Bool.and_eq_true, decide_eq_true_eq] at h
  omega

/-- A per-record outcome row together with the observable trace of the
search calls made (call count and backoff sleeps). -/
structure RecordOutcome where
  best_url : Str
  match_status : Str
  query_used : Str
  all_candidates : List Candidate
  calls : Nat
  sleeps : List Nat
deriving DecidableEq

/-- The per-record query loop of find_linkedins.py `process_records`
(lines 355-388): first match or first exhausted-retry error wins; the
first non-empty candidate list is retained. -/
def loopPk (oracle : Str → Nat → Except Str (List Candidate))
    (pick : List Candidate → Option Candidate) :
    List Str → List Candidate → Nat → List Nat → RecordOutcome
  | [], allCands, calls, sleeps =>
    ⟨[], s2l "not_found", [], allCands, calls, sleeps⟩
  | q :: rest, allCands, calls, sleeps =>
    let r := runQueryPk (oracle q) pick 0
    match r.1 with
    | .matched c cands =>
      ⟨c.url, s2l "matched", q,
        if allCands = [] ∧ cands ≠ [] then cands else allCands,
        calls + r.2.1, sleeps ++ r.2.2⟩
    | .nomatch cands =>
      loopPk oracle pick rest
        (if allCands = [] ∧ cands ≠ [] then cands else allCands)
        (calls + r.2.1) (sleeps ++ r.2.2)
    | .failed =>
      ⟨[], s2l "error", q, allCands, calls + r.2.1, sleeps ++ r.2.2⟩

/-- One record of find_linkedins.py `process_records` (lines 346-394):
the empty-queries shortcut, the query loop, and the final
`needs_review` resolution. -/
def processRecordPk (pick : List Candidate → Option Candidate)
    (oracle : Str → Nat → Except Str (List Candidate)) (queries : List Str) :
    RecordOutcome :=
  if queries = [] then ⟨[], s2l "not_found", [], [], 0, []⟩
  else
    let r := loopPk oracle pick queries [] 0 []
    if r.match_status = s2l "not_found" ∧ r.all_candidates ≠ [] then
      { r with match_status := s2l "needs_review",
               query_used := if r.query_used = [] then queries.headD [] else r.query_used }
    else r

/-- The per-record query loop of find_linkedins_cse.py `process_records`
(lines 359-389): no retry — any search failure is an immediate
per-record error. -/
def loopCse (oracle : Str → Except Str (List Candidate))
    (pick : List Candidate → Option Candidate) :
    List Str → List Candidate → Nat → RecordOutcome
  | [], allCands, calls => ⟨[], s2l "not_found", [], allCands, calls, []⟩
  | q :: rest, allCands, calls =>
    match oracle q with
    | .ok cands =>
      (match pick cands with
       | some c =>
         ⟨c.url, s2l "matched", q,
           if allCands = [] ∧ cands ≠ [] then cands else allCands, calls + 1, []⟩
       | none =>
         loopCse oracle pick rest
           (if allCands = [] ∧ cands ≠ [] then cands else allCands) (calls + 1))
    | .error _ => ⟨[], s2l "error", q, allCands, calls + 1, []⟩

/-- One record of find_linkedins_cse.py `process_records` (lines
351-395). -/
def processRecordCse (pick : List Candidate → Option Candidate)
    (oracle : Str → Except Str (List Candidate)) (queries : List Str) :
    RecordOutcome :=
  if queries = [] then ⟨[], s2l "not_found", [], [], 0, []⟩
  else
    let r := loopCse oracle pick queries [] 0
    if r.match_status = s2l "not_found" ∧ r.all_candidates ≠ [] then
      { r with match_status := s2l "needs_review",
               query_used := if r.query_used = [] then queries.headD [] else r.query_used }
    else r

/-- The inputs the per-record portion of `process_records` consumes. -/
structure RecordInput where
  queries : List Str
  oracle : Str → Nat → Except Str (List Candidate)
  pick : List Candidate → Option Candidate

/-- The batch loop of find_linkedins.py `process_records`: one output
row is appended for every record, whatever its outcome. -/
def processRecordsPk (recs : List RecordInput) : List RecordOutcome :=
  recs.map (fun r => processRecordPk r.pick r.oracle r.queries)

/-! ## Specification-side reference definitions -/

/-- Following the spec's words: the maximum score seen over the
candidates that pass the gate (0 when none do). -/
def specMaxScore (score : Candidate → Option Nat) (cands : List Candidate) : Nat :=
  (cands.filterMap score).foldl max 0

/-- Following the spec's words: return the first candidate achieving the
maximum score, but only if that maximum is at least 5. -/
def specSelect (score : Candidate → Option Nat) (cands : List Candidate) :
    Option Candidate :=
  if 5 ≤ specMaxScore score cands then
    cands.find? (fun c => score c == some (specMaxScore score cands))
  else none

/-- Following the spec's words: keep the first occurrence of each
distinct string, in order. -/
def firstOccurrences : List Str → List Str
  | [] => []
  | x :: t => x :: firstOccurrences (t.filter (fun y => decide (y ≠ x)))
termination_by l => l.length
decreasing_by
  have h := List.length_filter_le (fun y => decide (y ≠ x)) t
  simp only [List.length_cons]
  omega

/-! ## Lemmas about the selector loop -/

theorem le_foldl_max : ∀ (l : List Nat) (b : Nat), b ≤ l.foldl max b
  | [], b => le_refl b
  | s :: l, b => le_trans (Nat.le_max_left b s) (le_foldl_max l (max b s))

theorem foldl_max_mem : ∀ (l : List Nat) (b : Nat), l.foldl max b = b ∨ l.foldl max b ∈ l
  | [], _ => Or.inl rfl
  | s :: l, b => by
    rcases foldl_max_mem l (max b s) with h | h
    · rcases Nat.le_total b s with hbs | hsb
      · right
        rw [List.foldl_cons, h, Nat.max_eq_right hbs]
        exact List.mem_cons_self ..
      · left
        rw [List.foldl_cons, h, Nat.max_eq_left hsb]
    · right
      exact List.mem_cons_of_mem _ h

/-- Characterization of the shared best-candidate loop: the final best
score is the running maximum, and the final best candidate is the first
candidate achieving it (when the maximum improved on the initial one). -/
theorem pickLoop_spec (score : Candidate → Option Nat) :
    ∀ (cs : List Candidate) (best : Option Candidate) (bs : Nat),
      (pickLoop score cs best bs).2 = (cs.filterMap score).foldl max bs ∧
      (pickLoop score cs best bs).1 =
        if bs < (cs.filterMap score).foldl max bs then
          cs.find? (fun c => score c == some ((cs.filterMap score).foldl max bs))
        else best
  | [], best, bs => by simp [pickLoop]
  | c :: rest, best, bs => by
    cases hc : score c with
    | none =>
      have ih := pickLoop_spec score rest best bs
      have hf : (c :: rest).filterMap score = rest.filterMap score :=
        List.filterMap_cons_none hc
      have hl : pickLoop score (c :: rest) best bs = pickLoop score rest best bs := by
        simp [pickLoop, hc]
      rw [hl, hf]
      refine ⟨ih.1, ?_⟩
      rw [ih.2]
      by_cases hb : bs < (rest.filterMap score).foldl max bs
      · rw [if_pos hb, if_pos hb, List.find?_cons_of_neg]
        simp [hc]
      · rw [if_neg hb, if_neg hb]
    | some s =>
      have hf : (c :: rest).filterMap score = s :: rest.filterMap score :=
        List.filterMap_cons_some hc
      rw [hf]
      by_cases hb : bs < s
      · have ih := pickLoop_spec score rest (some c) s
        have hl : pickLoop score (c :: rest) best bs = pickLoop score rest (some c) s := by
          simp [pickLoop, hc, hb]
        have hmax : (s :: rest.filterMap score).foldl max bs
            = (rest.filterMap score).foldl max s := by
          rw [List.foldl_cons, Nat.max_eq_right (le_of_lt hb)]
        rw [hl, hmax]
        refine ⟨ih.1, ?_⟩
        rw [ih.2]
        have hsm : s ≤ (rest.filterMap score).foldl max s := le_foldl_max ..
        by_cases hs : s < (rest.filterMap score).foldl max s
        · rw [if_pos hs, if_pos (lt_of_lt_of_le hb hsm), List.find?_cons_of_neg]
          simp [hc]
          omega
        · have hse : (rest.filterMap score).foldl max s = s := le_antisymm (by omega) hsm
          rw [if_neg hs, hse, if_pos hb, List.find?_cons_of_pos]
          simp [hc]
      · have ih := pickLoop_spec score rest best bs
        have hl : pickLoop score (c :: rest) best bs = pickLoop score rest best bs := by
          simp [pickLoop, hc, hb]
        have hmax : (s :: rest.filterMap score).foldl max bs
            = (rest.filterMap score).foldl max bs := by
          rw [List.foldl_cons, Nat.max_eq_left (by omega)]
        rw [hl, hmax]
        refine ⟨ih.1, ?_⟩
        rw [ih.2]
        by_cases hb2 : bs < (rest.filterMap score).foldl max bs
        · rw [if_pos hb2, if_pos hb2, List.find?_cons_of_neg]
          simp [hc]
          omega
        · rw [if_neg hb2, if_neg hb2]

/-- The shared selector agrees with the spec-side selection rule, and it
returns a candidate exactly when the maximum score reaches 5. -/
theorem pickBest_def (score : Candidate → Option Nat) (cands : List Candidate) :
    pickBest score cands
      = if 5 ≤ (pickLoop score cands none 0).2 then (pickLoop score cands none 0).1
        else none := rfl

theorem pickBest_spec (score : Candidate → Option Nat) (cands : List Candidate) :
    pickBest score cands = specSelect score cands ∧
    (pickBest score cands).isSome = decide (5 ≤ specMaxScore score cands) := by
  have h := pickLoop_spec score cands none 0
  have hM : specMaxScore score cands = (cands.filterMap score).foldl max 0 := rfl
  by_cases h5 : 5 ≤ specMaxScore score cands
  · have h0 : 0 < (cands.filterMap score).foldl max 0 := by omega
    have hfind : pickBest score cands
        = cands.find? (fun c => score c == some (specMaxScore score cands)) := by
      rw [pickBest_def, h.1, hM.symm, if_pos h5, h.2, hM.symm, if_pos (by omega)]
    have hmem : specMaxScore score cands ∈ cands.filterMap score := by
      rcases foldl_max_mem (cands.filterMap score) 0 with he | hm
      · omega
      · exact hm
    rcases List.mem_filterMap.1 hmem with ⟨c, hcm, hcs⟩
    have hsome : (cands.find? (fun c => score c == some (specMaxScore score cands))).isSome
        = true := by
      cases hfe : cands.find? (fun c => score c == some (specMaxScore score cands)) with
      | none =>
        have := List.find?_eq_none.1 hfe c hcm
        simp [hcs] at this
      | some x => rfl
    refine ⟨?_, ?_⟩
    · rw [hfind, specSelect, if_pos h5]
    · rw [hfind, hsome, decide_eq_true h5]
  · have hfe : pickBest score cands = none := by
      rw [pickBest_def, h.1, hM.symm, if_neg h5]
    refine ⟨?_, ?_⟩
    · rw [hfe, specSelect, if_neg h5]
    · rw [hfe]
      simp [h5]

theorem pickLoop_some_of (score : Candidate → Option Nat) :
    ∀ (cs : List Candidate) (best : Option Candidate) (bs : Nat) (c : Candidate),
      (pickLoop score cs best bs).1 = some c →
      best = some c ∨ ∃ s, score c = some s
  | [], _, _, _, h => Or.inl h
  | c' :: rest, best, bs, c, h => by
    cases hc : score c' with
    | none =>
      rw [show pickLoop score (c' :: rest) best bs = pickLoop score rest best bs from by
        simp [pickLoop, hc]] at h
      exact pickLoop_some_of score rest best bs c h
    | some s =>
      by_cases hb : bs < s
      · rw [show pickLoop score (c' :: rest) best bs = pickLoop score rest (some c') s from by
          simp [pickLoop, hc, hb]] at h
        rcases pickLoop_some_of score rest (some c') s c h with he | he
        · right
          refine ⟨s, ?_⟩
          rw [← Option.some_inj.1 he]
          exact hc
        · exact Or.inr he
      · rw [show pickLoop score (c' :: rest) best bs = pickLoop score rest best bs from by
          simp [pickLoop, hc, hb]] at h
        exact pickLoop_some_of score rest best bs c h

theorem scoreOfPk_gate {full_name first_name : Str} {lt st rt : List Str}
    {cand : Candidate} {s : Nat} (h : scoreOfPk full_name first_name lt st rt cand = some s) :
    inStr (lowerS first_name) (lowerS cand.title) = true := by
  by_cases hg : inStr (lowerS first_name) (lowerS cand.title) = true
  · exact hg
  · rw [show scoreOfPk full_name first_name lt st rt cand = none from by
      simp [scoreOfPk, hg]] at h
    cases h

theorem scoreOfCse_gate {full_name first_name : Str} {lt st rt : List Str}
    {cand : Candidate} {s : Nat} (h : scoreOfCse full_name first_name lt st rt cand = some s) :
    inStr (lowerS first_name) (lowerS cand.title) = true := by
  by_cases hg : inStr (lowerS first_name) (lowerS cand.title) = true
  · exact hg
  · rw [show scoreOfCse full_name first_name lt st rt cand = none from by
      simp [scoreOfCse, hg]] at h
    cases h

theorem pickBest_gate (score : Candidate → Option Nat) (cands : List Candidate)
    (c : Candidate) (h : pickBest score cands = some c) : ∃ s, score c = some s := by
  rw [pickBest_def] at h
  split at h
  · rcases pickLoop_some_of score cands none 0 c h with he | he
    · cases he
    · exact he
  · cases h

/-- C1.  Neither selector ever returns a candidate whose (lowered) title
does not contain the (lowered) first name as a substring: any candidate
failing this gate is skipped without being scored. -/
theorem pick_gate_title_contains_first_name :
    (∀ (full_name first_name : Str) (loc_tokens skill_tokens role_tokens : List Str)
        (candidates : List Candidate),
      (pick_candidate full_name first_name loc_tokens skill_tokens candidates
          role_tokens).all
        (fun c => inStr (lowerS first_name) (lowerS c.title)) = true) ∧
    (∀ (full_name first_name : Str) (loc_tokens skill_tokens role_tokens : List Str)
        (candidates : List Candidate),
      (pick_best_linkedin_candidate full_name first_name loc_tokens skill_tokens candidates
          role_tokens).all
        (fun c => inStr (lowerS first_name) (lowerS c.title)) = true) := by
  constructor
  · intro full_name first_name lt st rt cands
    cases hp : pick_candidate full_name first_name lt st cands rt with
    | none => rfl
    | some c =>
      rcases pickBest_gate _ cands c hp with ⟨s, hs⟩
      simpa [Option.all] using scoreOfPk_gate hs
  · intro full_name first_name lt st rt cands
    cases hp : pick_best_linkedin_candidate full_name first_name lt st cands rt with
    | none => rfl
    | some c =>
      rcases pickBest_gate _ cands c hp with ⟨s, hs⟩
      simpa [Option.all] using scoreOfCse_gate hs

/-- C2.  Both selectors return exactly the first candidate achieving the
maximum score when that maximum is at least 5, and abstain otherwise. -/
theorem pick_selects_first_max_iff_threshold :
    (∀ (full_name first_name : Str) (loc_tokens skill_tokens role_tokens : List Str)
        (candidates : List Candidate),
      pick_candidate full_name first_name loc_tokens skill_tokens candidates role_tokens
        = specSelect (scoreOfPk full_name first_name loc_tokens skill_tokens role_tokens)
            candidates ∧
      (pick_candidate full_name first_name loc_tokens skill_tokens candidates
          role_tokens).isSome
        = decide (5 ≤ specMaxScore
            (scoreOfPk full_name first_name loc_tokens skill_tokens role_tokens) candidates)) ∧
    (∀ (full_name first_name : Str) (loc_tokens skill_tokens role_tokens : List Str)
        (candidates : List Candidate),
      pick_best_linkedin_candidate full_name first_name loc_tokens skill_tokens candidates
          role_tokens
        = specSelect (scoreOfCse full_name first_name loc_tokens skill_tokens role_tokens)
            candidates ∧
      (pick_best_linkedin_candidate full_name first_name loc_tokens skill_tokens candidates
          role_tokens).isSome
        = decide (5 ≤ specMaxScore
            (scoreOfCse full_name first_name loc_tokens skill_tokens role_tokens)
            candidates)) :=
  ⟨fun _ _ _ _ _ cands => pickBest_spec _ cands,
   fun _ _ _ _ _ cands => pickBest_spec _ cands⟩

/-! ## C3 and C4: bonus components inside the scorers -/

/-- C3 counterexample.  With full name "Alexander Jo" and combined text
"alexander smith", exactly one long name part ("alexander", length 9 > 2)
matches, yet the multi-part bonus is 0, because the source tests the
length of `name_parts[1]` ("jo"), not the length of the matching part;
and on a two-part match the alternate scorer adds 4, not 3.  The full
primary score of such a candidate is 3, where the claim predicts 4. -/
theorem name_bonus_counterexample :
    matchingPartsCount (splitWs (lowerS (s2l "Alexander Jo"))) (s2l "alexander smith") = 1 ∧
    (splitWs (lowerS (s2l "Alexander Jo"))).filter
        (fun part => 1 < part.length && inStr part (s2l "alexander smith"))
      = [s2l "alexander"] ∧
    2 < (s2l "alexander").length ∧
    namePartsBonusPk (splitWs (lowerS (s2l "Alexander Jo"))) (s2l "alexander smith") = 0 ∧
    scoreOfPk (s2l "Alexander Jo") (s2l "Alexander") [] [] []
        ⟨s2l "z", s2l "Alexander Smith", []⟩ = some 3 ∧
    namePartsBonusCse (splitWs (s2l "john smith")) (s2l "john smith is here") = 4 := by
  decide

/-- C3 (amended).  For a gate-passing candidate whose full name has more
than one part: when at least two long parts occur in the combined text
the primary scorer adds exactly +3 and the alternate exactly +4; when
exactly one occurs, the +1 bonus is granted exactly when the second name
part (not the matching part) is longer than two characters. -/
theorem name_bonus_amended :
    ∀ (full_name first_name : Str) (loc_tokens skill_tokens role_tokens : List Str)
      (cand : Candidate),
      inStr (lowerS first_name) (lowerS cand.title) = true →
      1 < (splitWs (lowerS full_name)).length →
      ((2 ≤ matchingPartsCount (splitWs (lowerS full_name))
            (combinedText (lowerS cand.title) (lowerS cand.snippet)) →
          scoreOfPk full_name first_name loc_tokens skill_tokens role_tokens cand
            = some (3 + 3
                + locationBonus loc_tokens (combinedText (lowerS cand.title) (lowerS cand.snippet))
                + contextBonus ctxKeywordsPk (combinedText (lowerS cand.title) (lowerS cand.snippet))
                + urlBonusPk (lowerS full_name) (lowerS first_name) (lowerS cand.url)
                + roleSkillBonus role_tokens skill_tokens
                    (combinedText (lowerS cand.title) (lowerS cand.snippet))) ∧
          scoreOfCse full_name first_name loc_tokens skill_tokens role_tokens cand
            = some (3 + 4
                + locationBonus loc_tokens (combinedText (lowerS cand.title) (lowerS cand.snippet))
                + contextBonus ctxKeywordsCse (combinedText (lowerS cand.title) (lowerS cand.snippet))
                + urlBonusCse (lowerS full_name) (lowerS first_name) (lowerS cand.url)
                + roleSkillBonus role_tokens skill_tokens
                    (combinedText (lowerS cand.title) (lowerS cand.snippet)))) ∧
       (matchingPartsCount (splitWs (lowerS full_name))
            (combinedText (lowerS cand.title) (lowerS cand.snippet)) = 1 →
        2 < (((splitWs (lowerS full_name)).get? 1).getD []).length →
          scoreOfPk full_name first_name loc_tokens skill_tokens role_tokens cand
            = some (3 + 1
                + locationBonus loc_tokens (combinedText (lowerS cand.title) (lowerS cand.snippet))
                + contextBonus ctxKeywordsPk (combinedText (lowerS cand.title) (lowerS cand.snippet))
                + urlBonusPk (lowerS full_name) (lowerS first_name) (lowerS cand.url)
                + roleSkillBonus role_tokens skill_tokens
                    (combinedText (lowerS cand.title) (lowerS cand.snippet))) ∧
          scoreOfCse full_name first_name loc_tokens skill_tokens role_tokens cand
            = some (3 + 1
                + locationBonus loc_tokens (combinedText (lowerS cand.title) (lowerS cand.snippet))
                + contextBonus ctxKeywordsCse (combinedText (lowerS cand.title) (lowerS cand.snippet))
                + urlBonusCse (lowerS full_name) (lowerS first_name) (lowerS cand.url)
                + roleSkillBonus role_tokens skill_tokens
                    (combinedText (lowerS cand.title) (lowerS cand.snippet))))) := by
  intro full_name first_name lt st rt cand hg hlen
  refine ⟨fun h2 => ⟨?_, ?_⟩, fun h1 hl => ⟨?_, ?_⟩⟩
  · simp [scoreOfPk, namePartsBonusPk, hg, hlen, h2]
  · simp [scoreOfCse, namePartsBonusCse, hg, hlen, h2]
  · simp only [List.get?_eq_getElem?, List.getElem?_eq_getElem hlen, Option.getD_some] at hl
    simp [scoreOfPk, namePartsBonusPk, hg, hlen, h1, hl]
  · simp only [List.get?_eq_getElem?, List.getElem?_eq_getElem hlen, Option.getD_some] at hl
    simp [scoreOfCse, namePartsBonusCse, hg, hlen, h1, hl]

theorem name_bonus_amended_witness :
    inStr (lowerS (s2l "John")) (lowerS (s2l "John Smith")) = true ∧
    1 < (splitWs (lowerS (s2l "John Smith"))).length ∧
    2 ≤ matchingPartsCount (splitWs (lowerS (s2l "John Smith")))
        (combinedText (lowerS (s2l "John Smith")) (lowerS ([] : Str))) ∧
    scoreOfPk (s2l "John Smith") (s2l "John") [] [] [] ⟨s2l "z", s2l "John Smith", []⟩
      = some 6 := by
  refine ⟨by decide, by decide, by decide, ?_⟩
  have h := ((name_bonus_amended (s2l "John Smith") (s2l "John") [] [] []
      ⟨s2l "z", s2l "John Smith", []⟩ (by decide) (by decide)).1 (by decide)).1
  rw [h]
  decide

/-- C4 counterexample.  With full name "Al Smith", first name "Al" and
candidate URL "https://www.linkedin.com/in/al123", the URL's profile
slug starts with the first name, so the claim demands +2; the alternate
variant nevertheless awards only +1, because it tests
any-long-part-in-URL first (here "smith" is absent) and gives the
slug-start rule the lower +1 tier.  The primary variant awards +2. -/
theorem url_bonus_counterexample :
    (linkedinWwwIn ++ lowerS (s2l "Al")).isPrefixOf
        (lowerS (s2l "https://www.linkedin.com/in/al123")) = true ∧
    urlBonusCse (lowerS (s2l "Al Smith")) (lowerS (s2l "Al"))
        (lowerS (s2l "https://www.linkedin.com/in/al123")) = 1 ∧
    urlBonusPk (lowerS (s2l "Al Smith")) (lowerS (s2l "Al"))
        (lowerS (s2l "https://www.linkedin.com/in/al123")) = 2 ∧
    scoreOfPk (s2l "Al Smith") (s2l "Al") [] [] []
        ⟨s2l "https://www.linkedin.com/in/al123", s2l "Al Person", []⟩ = some 6 ∧
    scoreOfCse (s2l "Al Smith") (s2l "Al") [] [] []
        ⟨s2l "https://www.linkedin.com/in/al123", s2l "Al Person", []⟩ = some 5 := by
  decide

/-- C4 (amended).  Inside the primary scorer the claimed precedence
holds: +2 when the URL starts with a profile prefix (www or bare)
followed by the first name, else +1 when some full-name part longer than
2 characters occurs in the URL.  The alternate scorer reverses the
precedence (+2 for any long part in the URL, else +1 for the www-form
slug start). -/
theorem url_bonus_amended :
    ∀ (full_name first_name : Str) (loc_tokens skill_tokens role_tokens : List Str)
      (cand : Candidate),
      inStr (lowerS first_name) (lowerS cand.title) = true →
      (((linkedinWwwIn ++ lowerS first_name).isPrefixOf (lowerS cand.url)
          || (linkedinBareIn ++ lowerS first_name).isPrefixOf (lowerS cand.url)) = true →
        scoreOfPk full_name first_name loc_tokens skill_tokens role_tokens cand
          = some (3 + namePartsBonusPk (splitWs (lowerS full_name))
                (combinedText (lowerS cand.title) (lowerS cand.snippet))
              + locationBonus loc_tokens (combinedText (lowerS cand.title) (lowerS cand.snippet))
              + contextBonus ctxKeywordsPk (combinedText (lowerS cand.title) (lowerS cand.snippet))
              + 2
              + roleSkillBonus role_tokens skill_tokens
                  (combinedText (lowerS cand.title) (lowerS cand.snippet)))) ∧
      (((linkedinWwwIn ++ lowerS first_name).isPrefixOf (lowerS cand.url)
          || (linkedinBareIn ++ lowerS first_name).isPrefixOf (lowerS cand.url)) = false →
        anyLongPartInUrl (lowerS full_name) (lowerS cand.url) = true →
        scoreOfPk full_name first_name loc_tokens skill_tokens role_tokens cand
          = some (3 + namePartsBonusPk (splitWs (lowerS full_name))
                (combinedText (lowerS cand.title) (lowerS cand.snippet))
              + locationBonus loc_tokens (combinedText (lowerS cand.title) (lowerS cand.snippet))
              + contextBonus ctxKeywordsPk (combinedText (lowerS cand.title) (lowerS cand.snippet))
              + 1
              + roleSkillBonus role_tokens skill_tokens
                  (combinedText (lowerS cand.title) (lowerS cand.snippet)))) ∧
      (anyLongPartInUrl (lowerS full_name) (lowerS cand.url) = true →
        scoreOfCse full_name first_name loc_tokens skill_tokens role_tokens cand
          = some (3 + namePartsBonusCse (splitWs (lowerS full_name))
                (combinedText (lowerS cand.title) (lowerS cand.snippet))
              + locationBonus loc_tokens (combinedText (lowerS cand.title) (lowerS cand.snippet))
              + contextBonus ctxKeywordsCse (combinedText (lowerS cand.title) (lowerS cand.snippet))
              + 2
              + roleSkillBonus role_tokens skill_tokens
                  (combinedText (lowerS cand.title) (lowerS cand.snippet)))) ∧
      (anyLongPartInUrl (lowerS full_name) (lowerS cand.url) = false →
        (linkedinWwwIn ++ lowerS first_name).isPrefixOf (lowerS cand.url) = true →
        scoreOfCse full_name first_name loc_tokens skill_tokens role_tokens cand
          = some (3 + namePartsBonusCse (splitWs (lowerS full_name))
                (combinedText (lowerS cand.title) (lowerS cand.snippet))
              + locationBonus loc_tokens (combinedText (lowerS cand.title) (lowerS cand.snippet))
              + contextBonus ctxKeywordsCse (combinedText (lowerS cand.title) (lowerS cand.snippet))
              + 1
              + roleSkillBonus role_tokens skill_tokens
                  (combinedText (lowerS cand.title) (lowerS cand.snippet)))) := by
  intro full_name first_name lt st rt cand hg
  refine ⟨fun hs => ?_, fun hs ha => ?_, fun ha => ?_, fun ha hs => ?_⟩
  · simp [scoreOfPk, urlBonusPk, hg, hs]
  · simp [scoreOfPk, urlBonusPk, hg, hs, ha]
  · simp [scoreOfCse, urlBonusCse, hg, ha]
  · simp [scoreOfCse, urlBonusCse, hg, ha, hs]

theorem url_bonus_amended_witness :
    inStr (lowerS (s2l "Al")) (lowerS (s2l "Al Person")) = true ∧
    ((linkedinWwwIn ++ lowerS (s2l "Al")).isPrefixOf
        (lowerS (s2l "https://www.linkedin.com/in/al123"))
      || (linkedinBareIn ++ lowerS (s2l "Al")).isPrefixOf
        (lowerS (s2l "https://www.linkedin.com/in/al123"))) = true ∧
    scoreOfPk (s2l "Al Smith") (s2l "Al") [] [] []
        ⟨s2l "https://www.linkedin.com/in/al123", s2l "Al Person", []⟩ = some 6 := by
  refine ⟨by decide, by decide, ?_⟩
  have h := (url_bonus_amended (s2l "Al Smith") (s2l "Al") [] [] []
      ⟨s2l "https://www.linkedin.com/in/al123", s2l "Al Person", []⟩ (by decide)).1 (by decide)
  rw [h]
  decide

/-- C10.  With empty full name and empty first name, the gate is
vacuously satisfied (the empty string is a substring of every title, so
the +3 base is granted), and location (+4), professional-context (+2)
and URL (+2 resp. +1) bonuses push the score past the threshold: both
selectors return a candidate instead of abstaining. -/
theorem empty_name_selector_fails_open :
    inStr (lowerS ([] : Str)) (lowerS (s2l "Some Person - Freelancer")) = true ∧
    scoreOfPk [] [] [s2l "lahore", s2l "pakistan"] [] []
        ⟨s2l "https://www.linkedin.com/in/someone", s2l "Some Person - Freelancer",
         s2l "Lahore, Pakistan"⟩ = some 11 ∧
    scoreOfCse [] [] [s2l "lahore", s2l "pakistan"] [] []
        ⟨s2l "https://www.linkedin.com/in/someone", s2l "Some Person - Freelancer",
         s2l "Lahore, Pakistan"⟩ = some 10 ∧
    pick_candidate [] [] [s2l "lahore", s2l "pakistan"] []
        [⟨s2l "https://www.linkedin.com/in/someone", s2l "Some Person - Freelancer",
          s2l "Lahore, Pakistan"⟩] []
      = some ⟨s2l "https://www.linkedin.com/in/someone", s2l "Some Person - Freelancer",
          s2l "Lahore, Pakistan"⟩ ∧
    pick_best_linkedin_candidate [] [] [s2l "lahore", s2l "pakistan"] []
        [⟨s2l "https://www.linkedin.com/in/someone", s2l "Some Person - Freelancer",
          s2l "Lahore, Pakistan"⟩] []
      = some ⟨s2l "https://www.linkedin.com/in/someone", s2l "Some Person - Freelancer",
          s2l "Lahore, Pakistan"⟩ := by
  decide

/-! ## Record-processing lemmas -/

theorem runQueryPk_ok {search : Nat → Except Str (List Candidate)}
    {pick : List Candidate → Option Candidate} {attempts : Nat}
    {cands : List Candidate} (h : search attempts = .ok cands) :
    runQueryPk search pick attempts
      = (match pick cands with
         | some c => (.matched c cands, 1, [])
         | none => (.nomatch cands, 1, [])) := by
  unfold runQueryPk
  rw [h]

theorem runQueryPk_err_retry {search : Nat → Except Str (List Candidate)}
    {pick : List Candidate → Option Candidate} {attempts : Nat} {msg : Str}
    (h : search attempts = .error msg) (hr : isRetryable msg = true)
    (ha : attempts + 1 < 3) :
    runQueryPk search pick attempts
      = ((runQueryPk search pick (attempts + 1)).1,
         (runQueryPk search pick (attempts + 1)).2.1 + 1,
         min 60 (5 * 2 ^ attempts) :: (runQueryPk search pick (attempts + 1)).2.2) := by
  conv_lhs => rw [runQueryPk.eq_def]
  rw [h]
  dsimp only
  rw [dif_pos (by simp [hr, ha])]

theorem runQueryPk_err_stop {search : Nat → Except Str (List Candidate)}
    {pick : List Candidate → Option Candidate} {attempts : Nat} {msg : Str}
    (h : search attempts = .error msg)
    (hs : (isRetryable msg && decide (attempts + 1 < 3)) = false) :
    runQueryPk search pick attempts = (.failed, 1, []) := by
  conv_lhs => rw [runQueryPk.eq_def]
  rw [h]
  dsimp only
  rw [dif_neg (by simp [hs])]


theorem loopPk_error_through (oracle : Str → Nat → Except Str (List Candidate))
    (pick : List Candidate → Option Candidate) :
    ∀ (qs1 : List Str) (q : Str) (qs2 : List Str) (ac : List Candidate)
      (calls : Nat) (sleeps : List Nat),
      (∀ q2 ∈ qs1, ∃ cs n sl, runQueryPk (oracle q2) pick 0 = (.nomatch cs, n, sl)) →
      (∃ n sl, runQueryPk (oracle q) pick 0 = (.failed, n, sl)) →
      ∃ ac2 calls2 sleeps2,
        loopPk oracle pick (qs1 ++ q :: qs2) ac calls sleeps
          = ⟨[], s2l "error", q, ac2, calls2, sleeps2⟩
  | [], q, qs2, ac, calls, sleeps, _, hq => by
    rcases hq with ⟨n, sl, hf⟩
    refine ⟨ac, calls + n, sleeps ++ sl, ?_⟩
    simp [loopPk, hf]
  | q2 :: qs1, q, qs2, ac, calls, sleeps, h1, hq => by
    rcases h1 q2 (List.mem_cons_self ..) with ⟨cs, n, sl, hn⟩
    have step : loopPk oracle pick ((q2 :: qs1) ++ q :: qs2) ac calls sleeps
        = loopPk oracle pick (qs1 ++ q :: qs2)
            (if ac = [] ∧ cs ≠ [] then cs else ac) (calls + n) (sleeps ++ sl) := by
      simp [loopPk, hn]
    rw [step]
    exact loopPk_error_through oracle pick qs1 q qs2 _ _ _
      (fun x hx => h1 x (List.mem_cons_of_mem _ hx)) hq

theorem processRecordPk_error (oracle : Str → Nat → Except Str (List Candidate))
    (pick : List Candidate → Option Candidate) (qs1 : List Str) (q : Str) (qs2 : List Str)
    (h1 : ∀ q2 ∈ qs1, ∃ cs n sl, runQueryPk (oracle q2) pick 0 = (.nomatch cs, n, sl))
    (hq : ∃ n sl, runQueryPk (oracle q) pick 0 = (.failed, n, sl)) :
    (processRecordPk pick oracle (qs1 ++ q :: qs2)).match_status = s2l "error" ∧
    (processRecordPk pick oracle (qs1 ++ q :: qs2)).query_used = q := by
  rcases loopPk_error_through oracle pick qs1 q qs2 [] 0 [] h1 hq with ⟨ac2, c2, s2, hl⟩
  have hne : qs1 ++ q :: qs2 ≠ [] := by simp
  rw [processRecordPk, if_neg hne]
  rw [hl]
  rw [if_neg (fun hc => absurd hc.1 (show ¬(s2l "error" = s2l "not_found") from by decide))]
  exact ⟨rfl, rfl⟩


/-- C8 counterexample.  The alternate orchestrator performs no retry at
all: a single rate-limit-class failure (a message containing "429")
immediately yields the per-record error outcome after exactly one search
call, contradicting the claimed 3-attempt retry. -/
theorem cse_no_retry_counterexample :
    isRetryable (s2l "Google CSE error 429: rate limited") = true ∧
    processRecordCse (fun _ => none)
        (fun _ => Except.error (s2l "Google CSE error 429: rate limited")) [s2l "q1"]
      = ⟨[], s2l "error", s2l "q1", [], 1, []⟩ := by
  decide

/-- C8 (amended).  The primary orchestrator retries a query failing with
a retryable (429/5xx-class) message, with exponential backoff sleeps of
5 then 10 seconds, up to 3 total attempts, after which the record's
outcome is error; a non-retryable failure yields error after a single
call; one output row is produced per record regardless (the batch is not
aborted).  The alternate orchestrator never retries: any failure yields
the error outcome after one call. -/
theorem retry_behavior_amended :
    (∀ (search : Nat → Except Str (List Candidate))
       (pick : List Candidate → Option Candidate) (m0 m1 m2 : Str),
       search 0 = .error m0 → isRetryable m0 = true →
       search 1 = .error m1 → isRetryable m1 = true →
       search 2 = .error m2 →
       runQueryPk search pick 0 = (.failed, 3, [5, 10])) ∧
    (∀ (search : Nat → Except Str (List Candidate))
       (pick : List Candidate → Option Candidate) (m : Str),
       search 0 = .error m → isRetryable m = false →
       runQueryPk search pick 0 = (.failed, 1, [])) ∧
    (∀ (oracle : Str → Nat → Except Str (List Candidate))
       (pick : List Candidate → Option Candidate) (qs1 : List Str) (q : Str) (qs2 : List Str),
       (∀ q2 ∈ qs1, ∃ cs n sl, runQueryPk (oracle q2) pick 0 = (.nomatch cs, n, sl)) →
       (∃ n sl, runQueryPk (oracle q) pick 0 = (.failed, n, sl)) →
       (processRecordPk pick oracle (qs1 ++ q :: qs2)).match_status = s2l "error" ∧
       (processRecordPk pick oracle (qs1 ++ q :: qs2)).query_used = q) ∧
    (∀ recs : List RecordInput, (processRecordsPk recs).length = recs.length) ∧
    (∀ (oracle : Str → Except Str (List Candidate))
       (pick : List Candidate → Option Candidate) (q : Str) (rest : List Str) (msg : Str),
       oracle q = .error msg →
       processRecordCse pick oracle (q :: rest) = ⟨[], s2l "error", q, [], 1, []⟩) := by
  refine ⟨?_, ?_, ?_, ?_, ?_⟩
  · intro search pick m0 m1 m2 h0 hr0 h1 hr1 h2
    have e2 : runQueryPk search pick 2 = (.failed, 1, []) :=
      runQueryPk_err_stop h2 (by simp)
    have e1 : runQueryPk search pick 1 = (.failed, 2, [10]) := by
      rw [runQueryPk_err_retry h1 hr1 (by omega), e2]
      decide
    rw [runQueryPk_err_retry h0 hr0 (by omega), e1]
    decide
  · intro search pick m h0 hr0
    exact runQueryPk_err_stop h0 (by simp [hr0])
  · intro oracle pick qs1 q qs2 h1 hq
    exact processRecordPk_error oracle pick qs1 q qs2 h1 hq
  · intro recs
    simp [processRecordsPk]
  · intro oracle pick q rest msg h
    simp [processRecordCse, loopCse, h]

theorem retry_behavior_amended_witness :
    isRetryable (s2l "Serper error 429: too many requests") = true ∧
    runQueryPk (fun _ => Except.error (s2l "Serper error 429: too many requests"))
        (fun _ => none) 0
      = (.failed, 3, [5, 10]) :=
  ⟨by decide,
   retry_behavior_amended.1 (fun _ => Except.error (s2l "Serper error 429: too many requests"))
     (fun _ => none) _ _ _ rfl (by decide) rfl (by decide) rfl⟩

/-- C9.  An empty name synthesizes no queries, and the orchestrator
records not_found with zero search calls. -/
theorem empty_name_not_found :
    ∀ (location : Str) (skills : List Str) (role country : Str)
      (pick : List Candidate → Option Candidate)
      (oracle : Str → Nat → Except Str (List Candidate)),
      build_queries [] location skills role country = [] ∧
      processRecordPk pick oracle (build_queries [] location skills role country)
        = ⟨[], s2l "not_found", [], [], 0, []⟩ := by
  intro location skills role country pick oracle
  refine ⟨rfl, ?_⟩
  rfl

/-- C7 at the failing input.  Two queries: the first returns no
candidates, the second returns one (non-matching) candidate.  The
outcome is needs_review, but `query_used` is the first query of the
list, not the (distinct) query that produced the candidates, despite the
source's own comment. -/
theorem loopPk_cons_nomatch {oracle : Str → Nat → Except Str (List Candidate)}
    {pick : List Candidate → Option Candidate} {q : Str} {rest : List Str}
    {ac cs : List Candidate} {calls n : Nat} {sleeps sl : List Nat}
    (h : runQueryPk (oracle q) pick 0 = (.nomatch cs, n, sl)) :
    loopPk oracle pick (q :: rest) ac calls sleeps
      = loopPk oracle pick rest (if ac = [] ∧ cs ≠ [] then cs else ac)
          (calls + n) (sleeps ++ sl) := by
  simp [loopPk, h]

/-- C7 at the failing input.  Two queries: the first returns no
candidates, the second returns one (non-matching) candidate.  The
outcome is needs_review, but `query_used` is the first query of the
list, not the (distinct) query that produced the candidates, despite the
source's own comment. -/
theorem needs_review_query_used_eval :
    processRecordPk
        (fun cs => pick_candidate (s2l "John Smith") (s2l "John") [] [] cs [])
        (fun q _ => if q = s2l "q1" then Except.ok ([] : List Candidate)
          else Except.ok [⟨s2l "https://www.linkedin.com/in/alice", s2l "Alice Wonder", []⟩])
        [s2l "q1", s2l "q2"]
      = ⟨[], s2l "needs_review", s2l "q1",
          [⟨s2l "https://www.linkedin.com/in/alice", s2l "Alice Wonder", []⟩], 2, []⟩ ∧
    s2l "q1" ≠ s2l "q2" := by
  constructor
  · have hq1 : runQueryPk
        ((fun q (_ : Nat) => if q = s2l "q1" then Except.ok ([] : List Candidate)
          else Except.ok [⟨s2l "https://www.linkedin.com/in/alice", s2l "Alice Wonder", []⟩])
          (s2l "q1"))
        (fun cs => pick_candidate (s2l "John Smith") (s2l "John") [] [] cs []) 0
        = (.nomatch [], 1, []) := by
      rw [runQueryPk_ok rfl]
      decide
    have hq2 : runQueryPk
        ((fun q (_ : Nat) => if q = s2l "q1" then Except.ok ([] : List Candidate)
          else Except.ok [⟨s2l "https://www.linkedin.com/in/alice", s2l "Alice Wonder", []⟩])
          (s2l "q2"))
        (fun cs => pick_candidate (s2l "John Smith") (s2l "John") [] [] cs []) 0
        = (.nomatch [⟨s2l "https://www.linkedin.com/in/alice", s2l "Alice Wonder", []⟩], 1, [])
        := by
      rw [runQueryPk_ok rfl]
      decide
    unfold processRecordPk
    rw [if_neg (show ¬([s2l "q1", s2l "q2"] = ([] : List Str)) from by decide)]
    rw [loopPk_cons_nomatch hq1]
    rw [loopPk_cons_nomatch hq2]
    decide
  · decide

/-! ## De-duplication lemmas -/

theorem mem_dedupSeen : ∀ (l seen : List Str) (x : Str),
    x ∈ dedupSeen seen l ↔ x ∈ l ∧ x ∉ seen
  | [], seen, x => by simp [dedupSeen]
  | q :: rest, seen, x => by
    by_cases hq : q ∈ seen
    · rw [show dedupSeen seen (q :: rest) = dedupSeen seen rest from by simp [dedupSeen, hq]]
      rw [mem_dedupSeen rest seen x]
      constructor
      · exact fun h => ⟨List.mem_cons_of_mem _ h.1, h.2⟩
      · rintro ⟨h1, h2⟩
        rcases List.mem_cons.1 h1 with he | hm
        · exact absurd (he ▸ hq) h2
        · exact ⟨hm, h2⟩
    · rw [show dedupSeen seen (q :: rest) = q :: dedupSeen (q :: seen) rest from by
        simp [dedupSeen, hq]]
      constructor
      · intro h
        rcases List.mem_cons.1 h with he | hm
        · exact ⟨he ▸ List.mem_cons_self .., he ▸ hq⟩
        · rcases (mem_dedupSeen rest (q :: seen) x).1 hm with ⟨hr, hns⟩
          exact ⟨List.mem_cons_of_mem _ hr,
            fun hs => hns (List.mem_cons_of_mem _ hs)⟩
      · rintro ⟨h1, h2⟩
        rcases List.mem_cons.1 h1 with he | hm
        · exact he ▸ List.mem_cons_self ..
        · by_cases hx : x = q
          · exact hx ▸ List.mem_cons_self ..
          · refine List.mem_cons_of_mem _ ((mem_dedupSeen rest (q :: seen) x).2 ⟨hm, ?_⟩)
            intro hs
            exact (List.mem_cons.1 hs).elim hx h2

theorem dedupSeen_length_le : ∀ (l seen : List Str),
    (dedupSeen seen l).length ≤ l.length
  | [], _ => le_refl 0
  | q :: rest, seen => by
    by_cases hq : q ∈ seen
    · rw [show dedupSeen seen (q :: rest) = dedupSeen seen rest from by simp [dedupSeen, hq]]
      exact le_trans (dedupSeen_length_le rest seen) (Nat.le_succ _)
    · rw [show dedupSeen seen (q :: rest) = q :: dedupSeen (q :: seen) rest from by
        simp [dedupSeen, hq]]
      simpa using dedupSeen_length_le rest (q :: seen)

theorem dedupSeen_nodup : ∀ (l seen : List Str), (dedupSeen seen l).Nodup
  | [], _ => List.nodup_nil
  | q :: rest, seen => by
    by_cases hq : q ∈ seen
    · rw [show dedupSeen seen (q :: rest) = dedupSeen seen rest from by simp [dedupSeen, hq]]
      exact dedupSeen_nodup rest seen
    · rw [show dedupSeen seen (q :: rest) = q :: dedupSeen (q :: seen) rest from by
        simp [dedupSeen, hq]]
      refine List.nodup_cons.2 ⟨fun hmem => ?_, dedupSeen_nodup rest (q :: seen)⟩
      exact ((mem_dedupSeen rest (q :: seen) q).1 hmem).2 (List.mem_cons_self ..)

theorem dedupSeen_append : ∀ (A B seen : List Str),
    ∃ B2, dedupSeen seen (A ++ B) = dedupSeen seen A ++ B2 ∧
      ∀ x ∈ B2, x ∈ B ∧ x ∉ A ∧ x ∉ seen
  | [], B, seen => by
    refine ⟨dedupSeen seen B, by simp [dedupSeen], fun x hx => ?_⟩
    have h := (mem_dedupSeen B seen x).1 hx
    exact ⟨h.1, by simp, h.2⟩
  | a :: A, B, seen => by
    by_cases ha : a ∈ seen
    · rcases dedupSeen_append A B seen with ⟨B2, h1, h2⟩
      refine ⟨B2, ?_, fun x hx => ?_⟩
      · rw [show dedupSeen seen ((a :: A) ++ B) = dedupSeen seen (A ++ B) from by
          simp [dedupSeen, ha], h1]
        congr 1
        simp [dedupSeen, ha]
      · rcases h2 x hx with ⟨hb, hna, hns⟩
        refine ⟨hb, fun hm => ?_, hns⟩
        rcases List.mem_cons.1 hm with he | hm2
        · exact hns (he ▸ ha)
        · exact hna hm2
    · rcases dedupSeen_append A B (a :: seen) with ⟨B2, h1, h2⟩
      refine ⟨B2, ?_, fun x hx => ?_⟩
      · rw [show dedupSeen seen ((a :: A) ++ B) = a :: dedupSeen (a :: seen) (A ++ B) from by
          simp [dedupSeen, ha], h1]
        rw [show dedupSeen seen (a :: A) = a :: dedupSeen (a :: seen) A from by
          simp [dedupSeen, ha]]
        simp
      · rcases h2 x hx with ⟨hb, hna, hns⟩
        refine ⟨hb, fun hm => ?_, fun hs => hns (List.mem_cons_of_mem _ hs)⟩
        rcases List.mem_cons.1 hm with he | hm2
        · exact hns (he ▸ List.mem_cons_self ..)
        · exact hna hm2

theorem dedupSeen_eq_firstOccurrences_aux : ∀ (l seen : List Str),
    dedupSeen seen l = firstOccurrences (l.filter (fun x => decide (x ∉ seen)))
  | [], seen => by simp [dedupSeen, firstOccurrences]
  | q :: rest, seen => by
    by_cases hq : q ∈ seen
    · rw [show dedupSeen seen (q :: rest) = dedupSeen seen rest from by simp [dedupSeen, hq]]
      rw [dedupSeen_eq_firstOccurrences_aux rest seen]
      congr 1
      rw [List.filter_cons_of_neg (by simp [hq])]
    · rw [show dedupSeen seen (q :: rest) = q :: dedupSeen (q :: seen) rest from by
        simp [dedupSeen, hq]]
      rw [List.filter_cons_of_pos (by simp [hq]), firstOccurrences]
      rw [dedupSeen_eq_firstOccurrences_aux rest (q :: seen)]
      have hfe : rest.filter (fun x => decide (x ∉ q :: seen))
          = (rest.filter (fun x => decide (x ∉ seen))).filter (fun y => decide (y ≠ q)) := by
        rw [List.filter_filter]
        apply List.filter_congr
        intro x _
        by_cases h1 : x ∈ seen <;> by_cases h2 : x = q <;> simp [h1, h2]
      rw [hfe]

theorem dedupSeen_eq_firstOccurrences (l : List Str) :
    dedupSeen [] l = firstOccurrences l := by
  rw [dedupSeen_eq_firstOccurrences_aux l []]
  congr 1
  apply List.filter_eq_self.2
  intro x _
  simp

/-! ## Whitespace splitting lemmas -/

theorem splitPAux_no_sep (p : Char → Bool) :
    ∀ (x rest acc : Str), (∀ c ∈ x, p c = false) →
      splitPAux p (x ++ rest) acc = splitPAux p rest (x.reverse ++ acc)
  | [], rest, acc, _ => by simp
  | c :: x, rest, acc, h => by
    have hc : p c = false := h c (List.mem_cons_self ..)
    rw [List.cons_append,
      show splitPAux p (c :: (x ++ rest)) acc = splitPAux p (x ++ rest) (c :: acc) from by
        simp [splitPAux, hc],
      splitPAux_no_sep p x rest (c :: acc) (fun d hd => h d (List.mem_cons_of_mem _ hd))]
    congr 1
    simp

theorem splitPAux_tokens (p : Char → Bool) :
    ∀ (s acc : Str), (∀ c ∈ acc, p c = false) →
      ∀ t ∈ splitPAux p s acc, t ≠ [] ∧ ∀ c ∈ t, p c = false
  | [], acc, ha => by
    intro t ht
    by_cases h0 : acc = []
    · simp [splitPAux, h0] at ht
    · rw [show splitPAux p [] acc = [acc.reverse] from by simp [splitPAux, h0]] at ht
      rcases List.mem_singleton.1 ht with rfl
      refine ⟨by simpa using h0, fun c hc => ha c (List.mem_reverse.1 hc)⟩
  | c :: s, acc, ha => by
    intro t ht
    by_cases hc : p c = true
    · by_cases h0 : acc = []
      · rw [show splitPAux p (c :: s) acc = splitPAux p s [] from by
          simp [splitPAux, hc, h0]] at ht
        exact splitPAux_tokens p s [] (by simp) t ht
      · rw [show splitPAux p (c :: s) acc = acc.reverse :: splitPAux p s [] from by
          simp [splitPAux, hc, h0]] at ht
        rcases List.mem_cons.1 ht with rfl | hm
        · exact ⟨by simpa using h0, fun d hd => ha d (List.mem_reverse.1 hd)⟩
        · exact splitPAux_tokens p s [] (by simp) t hm
    · have hcf : p c = false := by
        cases hpc : p c
        · rfl
        · exact absurd hpc hc
      rw [show splitPAux p (c :: s) acc = splitPAux p s (c :: acc) from by
        simp [splitPAux, hcf]] at ht
      refine splitPAux_tokens p s (c :: acc) ?_ t ht
      intro d hd
      rcases List.mem_cons.1 hd with rfl | hm
      · exact hcf
      · exact ha d hm

/-- Splitting a two-token single-space join recovers the tokens. -/
theorem splitWs_pair (p1 p2 : Str) (h1 : p1 ≠ []) (h2 : p2 ≠ [])
    (w1 : ∀ c ∈ p1, isWs c = false) (w2 : ∀ c ∈ p2, isWs c = false) :
    splitWs (p1 ++ ' ' :: p2) = [p1, p2] := by
  unfold splitWs
  rw [splitPAux_no_sep isWs p1 (' ' :: p2) [] w1]
  rw [show splitPAux isWs (' ' :: p2) (p1.reverse ++ [])
      = p1.reverse.reverse :: splitPAux isWs p2 [] from by
    simp [splitPAux, isWs, h1]]
  conv_lhs => rw [show (p2 : Str) = p2 ++ [] from by simp]
  rw [splitPAux_no_sep isWs p2 [] [] w2]
  simp [splitPAux, h2]


/-! ## Consequences of a two-part whitespace split -/

theorem splitWs_tokens {name : Str} {l : List Str} (h : splitWs name = l) :
    ∀ t ∈ l, t ≠ [] ∧ ∀ c ∈ t, isWs c = false := by
  intro t ht
  refine splitPAux_tokens isWs name [] (by simp) t ?_
  rw [show splitPAux isWs name [] = splitWs name from rfl, h]
  exact ht

theorem intercalate_pair (p1 p2 : Str) :
    List.intercalate [' '] [p1, p2] = p1 ++ ' ' :: p2 := by
  simp [List.intercalate]

theorem normalize_of_pair {name p1 p2 : Str} (h : splitWs name = [p1, p2]) :
    normalize_whitespace name = p1 ++ ' ' :: p2 := by
  rw [normalize_whitespace, h, intercalate_pair]

theorem first_name_of_pair {name p1 p2 : Str} (h : splitWs name = [p1, p2]) :
    first_name_from name = p1 := by
  have hp1 := splitWs_tokens h p1 (List.mem_cons_self ..)
  have hp2 := splitWs_tokens h p2 (List.mem_cons_of_mem _ (List.mem_cons_self ..))
  rw [first_name_from, normalize_of_pair h,
    splitWs_pair p1 p2 hp1.1 hp2.1 hp1.2 hp2.2]
  rfl

theorem name_ne_of_pair {name p1 p2 : Str} (h : splitWs name = [p1, p2]) :
    name ≠ [] := by
  intro hn
  rw [hn] at h
  simp [splitWs, splitPAux] at h

/-! ## Shapes of the synthesized queries -/

theorem quoteQ_append (s t : Str) : quoteQ s ++ t = '"' :: (s ++ '"' :: t) := by
  simp [quoteQ]

theorem truncQueriesPk_shape (fq fo loc ts : Str) :
    ∀ q ∈ truncQueriesPk fq fo loc ts,
      (∃ t, q = fq ++ t) ∨ q = fo ++ s2l " freelancer " ++ loc ++ siteSuffix := by
  intro q hq
  unfold truncQueriesPk at hq
  rw [List.mem_append, List.mem_append] at hq
  rcases hq with (hq | hq) | hq
  · split at hq
    · rcases List.mem_cons.1 hq with rfl | hq
      · exact Or.inl ⟨s2l " freelancer " ++ loc ++ siteSuffix, by simp [List.append_assoc]⟩
      · rcases List.mem_singleton.1 hq with rfl
        exact Or.inl ⟨' ' :: (loc ++ siteSuffix), rfl⟩
    · cases hq
  · split at hq
    · rcases List.mem_singleton.1 hq with rfl
      exact Or.inl ⟨' ' :: (ts ++ ' ' :: (loc ++ siteSuffix)), rfl⟩
    · cases hq
  · rcases List.mem_singleton.1 hq with rfl
    exact Or.inr rfl

theorem truncQueriesCse_shape (fq fo loc ts : Str) :
    ∀ q ∈ truncQueriesCse fq fo loc ts,
      (∃ t, q = fq ++ t) ∨ q = fo ++ s2l " freelancer " ++ loc ++ siteSuffix := by
  intro q hq
  unfold truncQueriesCse at hq
  rw [List.mem_append, List.mem_append] at hq
  rcases hq with (hq | hq) | hq
  · split at hq
    · rcases List.mem_cons.1 hq with rfl | hq
      · exact Or.inl ⟨s2l " freelancer " ++ loc ++ siteSuffix, by simp [List.append_assoc]⟩
      · rcases List.mem_singleton.1 hq with rfl
        exact Or.inl ⟨' ' :: (loc ++ siteSuffix), rfl⟩
    · cases hq
  · rcases List.mem_singleton.1 hq with rfl
    exact Or.inr rfl
  · split at hq
    · rcases List.mem_singleton.1 hq with rfl
      exact Or.inl ⟨' ' :: (ts ++ ' ' :: (loc ++ siteSuffix)), rfl⟩
    · cases hq

/-- Every truncated-stage query is either the quote-led shape
`'"' :: (p1 ++ '"' :: t)` or the unquoted shape `p1 ++ ' ' :: t`. -/
theorem truncStagePk_shape {name p1 p2 : Str} (h : splitWs name = [p1, p2])
    (location : Str) (skills : List Str) :
    ∀ q ∈ truncStagePk name location skills,
      (∃ t, q = '"' :: (p1 ++ '"' :: t)) ∨ (∃ t, q = p1 ++ ' ' :: t) := by
  intro q hq
  unfold truncStagePk at hq
  rw [first_name_of_pair h] at hq
  have hp1 := splitWs_tokens h p1 (List.mem_cons_self ..)
  dsimp only at hq
  rw [if_pos hp1.1] at hq
  split at hq
  · rcases truncQueriesPk_shape _ _ _ _ q hq with ⟨t, rfl⟩ | rfl
    · exact Or.inl ⟨t, quoteQ_append p1 t⟩
    · refine Or.inr ⟨s2l "freelancer " ++ (normalize_whitespace location ++ siteSuffix), ?_⟩
      show p1 ++ s2l " freelancer " ++ normalize_whitespace location ++ siteSuffix = _
      rw [show s2l " freelancer " = ' ' :: s2l "freelancer " from rfl]
      simp [List.append_assoc]
  · cases hq

theorem truncStageCse_shape {name p1 p2 : Str} (h : splitWs name = [p1, p2])
    (location : Str) (skills : List Str) :
    ∀ q ∈ truncStageCse name location skills,
      (∃ t, q = '"' :: (p1 ++ '"' :: t)) ∨ (∃ t, q = p1 ++ ' ' :: t) := by
  intro q hq
  unfold truncStageCse at hq
  rw [first_name_of_pair h] at hq
  have hp1 := splitWs_tokens h p1 (List.mem_cons_self ..)
  dsimp only at hq
  rw [if_pos hp1.1] at hq
  split at hq
  · rcases truncQueriesCse_shape _ _ _ _ q hq with ⟨t, rfl⟩ | rfl
    · exact Or.inl ⟨t, quoteQ_append p1 t⟩
    · refine Or.inr ⟨s2l "freelancer " ++ (normalize_whitespace location ++ siteSuffix), ?_⟩
      show p1 ++ s2l " freelancer " ++ normalize_whitespace location ++ siteSuffix = _
      rw [show s2l " freelancer " = ' ' :: s2l "freelancer " from rfl]
      simp [List.append_assoc]
  · cases hq

/-- Every full-name-stage query has the shape `'"' :: (p1 ++ ' ' :: t)`. -/
theorem fullStagePk_shape {name p1 p2 : Str} (h : splitWs name = [p1, p2])
    (location : Str) (skills : List Str) (role : Str) :
    ∀ q ∈ fullStagePk name location skills role,
      ∃ t, q = '"' :: (p1 ++ ' ' :: t) := by
  intro q hq
  unfold fullStagePk at hq
  rw [if_pos (name_ne_of_pair h), normalize_of_pair h] at hq
  dsimp only at hq
  have key : ∀ t : Str, quoteQ (p1 ++ ' ' :: p2) ++ t = '"' :: (p1 ++ ' ' :: (p2 ++ '"' :: t)) := by
    intro t
    rw [quoteQ_append]
    simp [List.append_assoc]
  split at hq
  · rw [List.mem_append, List.mem_append] at hq
    rcases hq with (hq | hq) | hq
    · rcases List.mem_cons.1 hq with rfl | hq
      · exact ⟨p2 ++ '"' :: (s2l " freelancer " ++ normalize_whitespace location ++ siteSuffix),
          by rw [← key]; simp [List.append_assoc]⟩
      · rcases List.mem_singleton.1 hq with rfl
        exact ⟨p2 ++ '"' :: (' ' :: (normalize_whitespace location ++ siteSuffix)), (key _)⟩
    · split at hq
      · rcases List.mem_singleton.1 hq with rfl
        exact ⟨p2 ++ '"' :: (' ' :: (normalize_whitespace role
          ++ ' ' :: (normalize_whitespace location ++ siteSuffix))), (key _)⟩
      · cases hq
    · split at hq
      · rcases List.mem_singleton.1 hq with rfl
        exact ⟨p2 ++ '"' :: (' ' :: (normalize_whitespace (skills.headD [])
          ++ ' ' :: (normalize_whitespace location ++ siteSuffix))), (key _)⟩
      · cases hq
  · cases hq


/-! ## Disjointness of the truncated and full-name stages -/

theorem take_len_append : ∀ (p y : Str), (p ++ y).take p.length = p
  | [], _ => rfl
  | c :: p, y => by
    simp [take_len_append p y]

theorem take_len_append_cons : ∀ (p : Str) (c : Char) (t : Str),
    (p ++ c :: t).take (p.length + 1) = p ++ [c]
  | [], c, t => by simp
  | d :: p, c, t => by
    simp [take_len_append_cons p c t]

theorem trunc_full_disjoint {p1 : Str} :
    ∀ q : Str, ((∃ t, q = '"' :: (p1 ++ '"' :: t)) ∨ (∃ t, q = p1 ++ ' ' :: t)) →
      (∃ t, q = '"' :: (p1 ++ ' ' :: t)) → False := by
  rintro q (⟨t, rfl⟩ | ⟨t, rfl⟩) ⟨u, hu⟩
  · injection hu with h1 h2
    have h3 := List.append_cancel_left h2
    injection h3 with h4 h5
    exact (by decide : ('"' : Char) ≠ ' ') h4
  · have hT := congrArg (List.take (p1.length + 1)) hu
    rw [take_len_append_cons] at hT
    rw [List.take_succ_cons, take_len_append] at hT
    have hc := congrArg (List.count '"') hT
    rw [List.count_append, List.count_cons_self] at hc
    simp at hc

/-! ## Structure of the de-duplicated, capped query list -/

theorem dedup_take_stage (A R F : List Str) (cap : Nat)
    (hcap : A.length ≤ cap)
    (hdisj : ∀ q ∈ A, q ∉ F) :
    (∀ q ∈ A, q ∈ (dedupSeen [] (A ++ R)).take cap) ∧
    (∀ (i j : Nat) (q1 q2 : Str),
      ((dedupSeen [] (A ++ R)).take cap).get? i = some q1 →
      ((dedupSeen [] (A ++ R)).take cap).get? j = some q2 →
      q1 ∈ A → q2 ∈ F → i < j) := by
  rcases dedupSeen_append A R [] with ⟨B2, hsplit, hB2⟩
  have hdlen : (dedupSeen [] A).length ≤ cap :=
    le_trans (dedupSeen_length_le A []) hcap
  have hout : (dedupSeen [] (A ++ R)).take cap
      = dedupSeen [] A ++ B2.take (cap - (dedupSeen [] A).length) := by
    rw [hsplit, List.take_append_eq_append_take, List.take_all_of_le hdlen]
  constructor
  · intro q hq
    rw [hout]
    exact List.mem_append_left _ ((mem_dedupSeen A [] q).2 ⟨hq, by simp⟩)
  · intro i j q1 q2 hgi hgj hq1 hq2
    rw [hout] at hgi hgj
    have hiL : i < (dedupSeen [] A).length := by
      by_contra hge
      push_neg at hge
      rw [List.get?_append_right hge] at hgi
      have hmem : q1 ∈ B2.take (cap - (dedupSeen [] A).length) := List.get?_mem hgi
      exact (hB2 q1 (List.take_subset _ _ hmem)).2.1 hq1
    have hjL : (dedupSeen [] A).length ≤ j := by
      by_contra hlt
      push_neg at hlt
      rw [List.get?_append hlt] at hgj
      have hmem : q2 ∈ dedupSeen [] A := List.get?_mem hgj
      exact hdisj q2 ((mem_dedupSeen A [] q2).1 hmem).1 hq2
    omega

theorem truncQueriesPk_length_le (fq fo loc ts : Str) :
    (truncQueriesPk fq fo loc ts).length ≤ 4 := by
  unfold truncQueriesPk
  split <;> split <;> simp

theorem truncQueriesCse_length_le (fq fo loc ts : Str) :
    (truncQueriesCse fq fo loc ts).length ≤ 4 := by
  unfold truncQueriesCse
  split <;> split <;> simp

theorem truncStagePk_length_le (name location : Str) (skills : List Str) :
    (truncStagePk name location skills).length ≤ 4 := by
  unfold truncStagePk
  dsimp only
  split_ifs <;> first
    | exact truncQueriesPk_length_le ..
    | simp

theorem truncStageCse_length_le (name location : Str) (skills : List Str) :
    (truncStageCse name location skills).length ≤ 4 := by
  unfold truncStageCse
  dsimp only
  split_ifs <;> first
    | exact truncQueriesCse_length_le ..
    | simp

theorem build_queries_eq (name location : Str) (skills : List Str) (role country : Str) :
    build_queries name location skills role country
      = (dedupSeen [] (truncStagePk name location skills ++
          (fullStagePk name location skills role ++ countryStagePk name country location
            ++ nameOnlyStagePk name))).take 8 := by
  rw [build_queries, assembledPk]
  simp [List.append_assoc]

theorem build_cse_queries_eq (name location : Str) (skills : List Str) (role country : Str) :
    build_cse_queries name location skills role country
      = (dedupSeen [] (truncStageCse name location skills ++
          (fullStagePk name location skills role ++ countryStagePk name country location
            ++ nameOnlyStagePk name))).take 6 := by
  rw [build_cse_queries, assembledCse]
  simp [List.append_assoc]


/-- C5.  For a truncated name (two whitespace-separated parts, the
second at most 2 characters ending in a period), `is_truncated` is
detected, every truncated-stage query string occurs in the synthesized
list, and every occurrence of a truncated-stage query precedes every
occurrence of a full-name-stage query — in both variants. -/
theorem truncated_queries_first :
    ∀ (name location : Str) (skills : List Str) (role country : Str) (p1 p2 : Str),
      splitWs name = [p1, p2] →
      p2.length ≤ 2 →
      ['.'].isSuffixOf p2 = true →
      is_truncated name = true ∧
      (∀ q ∈ truncStagePk name location skills,
        q ∈ build_queries name location skills role country) ∧
      (∀ (i j : Nat) (q1 q2 : Str),
        (build_queries name location skills role country).get? i = some q1 →
        (build_queries name location skills role country).get? j = some q2 →
        q1 ∈ truncStagePk name location skills →
        q2 ∈ fullStagePk name location skills role → i < j) ∧
      (∀ q ∈ truncStageCse name location skills,
        q ∈ build_cse_queries name location skills role country) ∧
      (∀ (i j : Nat) (q1 q2 : Str),
        (build_cse_queries name location skills role country).get? i = some q1 →
        (build_cse_queries name location skills role country).get? j = some q2 →
        q1 ∈ truncStageCse name location skills →
        q2 ∈ fullStagePk name location skills role → i < j) := by
  intro name location skills role country p1 p2 hsplit hlen hdot
  have hdisjPk : ∀ q ∈ truncStagePk name location skills,
      q ∉ fullStagePk name location skills role := by
    intro q hq hf
    exact trunc_full_disjoint q (truncStagePk_shape hsplit location skills q hq)
      (fullStagePk_shape hsplit location skills role q hf)
  have hdisjCse : ∀ q ∈ truncStageCse name location skills,
      q ∉ fullStagePk name location skills role := by
    intro q hq hf
    exact trunc_full_disjoint q (truncStageCse_shape hsplit location skills q hq)
      (fullStagePk_shape hsplit location skills role q hf)
  have hPk := dedup_take_stage (truncStagePk name location skills)
    (fullStagePk name location skills role ++ countryStagePk name country location
      ++ nameOnlyStagePk name)
    (fullStagePk name location skills role) 8
    (le_trans (truncStagePk_length_le ..) (by omega)) hdisjPk
  have hCse := dedup_take_stage (truncStageCse name location skills)
    (fullStagePk name location skills role ++ countryStagePk name country location
      ++ nameOnlyStagePk name)
    (fullStagePk name location skills role) 6
    (le_trans (truncStageCse_length_le ..) (by omega)) hdisjCse
  refine ⟨?_, ?_, ?_, ?_, ?_⟩
  · simp [is_truncated, hsplit, hlen, hdot]
  · intro q hq
    rw [build_queries_eq]
    exact hPk.1 q hq
  · intro i j q1 q2 hgi hgj h1 h2
    rw [build_queries_eq] at hgi hgj
    exact hPk.2 i j q1 q2 hgi hgj h1 h2
  · intro q hq
    rw [build_cse_queries_eq]
    exact hCse.1 q hq
  · intro i j q1 q2 hgi hgj h1 h2
    rw [build_cse_queries_eq] at hgi hgj
    exact hCse.2 i j q1 q2 hgi hgj h1 h2

theorem truncated_queries_first_witness :
    splitWs (s2l "Amna M.") = [s2l "Amna", s2l "M."] ∧
    (s2l "M.").length ≤ 2 ∧
    ['.'].isSuffixOf (s2l "M.") = true ∧
    (is_truncated (s2l "Amna M.") = true ∧
      (∀ q ∈ truncStagePk (s2l "Amna M.") (s2l "Lahore, Pakistan") [s2l "Market Research"],
        q ∈ build_queries (s2l "Amna M.") (s2l "Lahore, Pakistan")
            [s2l "Market Research"] [] []) ∧
      (∀ (i j : Nat) (q1 q2 : Str),
        (build_queries (s2l "Amna M.") (s2l "Lahore, Pakistan")
            [s2l "Market Research"] [] []).get? i = some q1 →
        (build_queries (s2l "Amna M.") (s2l "Lahore, Pakistan")
            [s2l "Market Research"] [] []).get? j = some q2 →
        q1 ∈ truncStagePk (s2l "Amna M.") (s2l "Lahore, Pakistan") [s2l "Market Research"] →
        q2 ∈ fullStagePk (s2l "Amna M.") (s2l "Lahore, Pakistan")
            [s2l "Market Research"] [] → i < j) ∧
      (∀ q ∈ truncStageCse (s2l "Amna M.") (s2l "Lahore, Pakistan") [s2l "Market Research"],
        q ∈ build_cse_queries (s2l "Amna M.") (s2l "Lahore, Pakistan")
            [s2l "Market Research"] [] []) ∧
      (∀ (i j : Nat) (q1 q2 : Str),
        (build_cse_queries (s2l "Amna M.") (s2l "Lahore, Pakistan")
            [s2l "Market Research"] [] []).get? i = some q1 →
        (build_cse_queries (s2l "Amna M.") (s2l "Lahore, Pakistan")
            [s2l "Market Research"] [] []).get? j = some q2 →
        q1 ∈ truncStageCse (s2l "Amna M.") (s2l "Lahore, Pakistan") [s2l "Market Research"] →
        q2 ∈ fullStagePk (s2l "Amna M.") (s2l "Lahore, Pakistan")
            [s2l "Market Research"] [] → i < j)) :=
  ⟨by decide, by decide, by decide,
   truncated_queries_first (s2l "Amna M.") (s2l "Lahore, Pakistan") [s2l "Market Research"]
     [] [] (s2l "Amna") (s2l "M.") (by decide) (by decide) (by decide)⟩

/-- C6.  Both synthesized query lists are duplicate-free, keep the first
occurrence of each distinct string in assembly order, and never exceed
their cap (8 for the primary variant, 6 for the alternate). -/
theorem queries_nodup_capped_first_occurrence :
    ∀ (name location : Str) (skills : List Str) (role country : Str),
      (build_queries name location skills role country).Nodup ∧
      (build_queries name location skills role country).length ≤ 8 ∧
      build_queries name location skills role country
        = (firstOccurrences (assembledPk name location skills role country)).take 8 ∧
      (build_cse_queries name location skills role country).Nodup ∧
      (build_cse_queries name location skills role country).length ≤ 6 ∧
      build_cse_queries name location skills role country
        = (firstOccurrences (assembledCse name location skills role country)).take 6 := by
  intro name location skills role country
  refine ⟨?_, ?_, ?_, ?_, ?_, ?_⟩
  · exact List.Nodup.sublist (List.take_sublist ..)
      (dedupSeen_nodup (assembledPk name location skills role country) [])
  · rw [build_queries]
    exact le_trans (Nat.le_of_eq (List.length_take ..)) (min_le_left ..)
  · rw [build_queries, dedupSeen_eq_firstOccurrences]
  · exact List.Nodup.sublist (List.take_sublist ..)
      (dedupSeen_nodup (assembledCse name location skills role country) [])
  · rw [build_cse_queries]
    exact le_trans (Nat.le_of_eq (List.length_take ..)) (min_le_left ..)
  · rw [build_cse_queries, dedupSeen_eq_firstOccurrences]
